import Mathlib

/-!
# Motion detection pipeline (`main.go`): embedding and verified properties

The Go program wires a WebRTC ingestion stage, an ffmpeg transcoding stage and
an OpenCV motion-detection loop around one `io.Pipe`.  This development embeds
the parts of `main.go` that decide the stated properties:

* `motion_detect` : the frame-reading loop, the per-frame image pipeline
  (`Apply`, `Threshold`, `Dilate`, `FindContours`), the contour loop and the
  key check, as a fuelled state-passing function;
* `stdin`         : the line-reading loop and the first-byte check;
* `video_capture`, the `OnTrack` handler and `main` : the channel operations
  and the wiring of pipe ends.

Library calls whose implementation is outside the program (the MOG2 background
subtractor, contour extraction, contour area, bounding rectangles, the JSON
decoder) are parameters.  `io.ReadFull`, `bufio.Reader.ReadString`,
`strings.TrimSpace`, `gocv.Threshold` and `gocv.Dilate` are written out from
their documented behaviour.
-/

namespace MotionDetect

/-! ## Constants and basic types -/

/-- Frame width, `frameX = 860`. -/
def frameX : Nat := 860

/-- Frame height, `frameY = 720`. -/
def frameY : Nat := 720

/-- Minimum contour area, `minArea = 3000` (an untyped constant, converted to
the type of the area it is compared with). -/
def minArea : Nat := 3000

/-- Go type `CVStatus`, a string type. -/
abbrev CVStatus := String

/-- Value `Stale CVStatus = "Stale"`. -/
def Stale : CVStatus := "Stale"

/-- Value `Detected CVStatus = "Motion Detected"`. -/
def Detected : CVStatus := "Motion Detected"

/-- Go error values that occur in the program: the two sentinel errors of
package `io` and errors built by `fmt.Errorf`. -/
inductive GoError where
  | EOF
  | ErrUnexpectedEOF
  | errorf (msg : String)
  deriving DecidableEq, Repr

/-- Colour `color.RGBA`. -/
structure RGBA where
  r : Nat
  g : Nat
  b : Nat
  a : Nat
  deriving DecidableEq, Repr

/-- Rectangle `image.Rectangle`, by its two corner points. -/
structure Rect where
  minX : Int
  minY : Int
  maxX : Int
  maxY : Int
  deriving DecidableEq, Repr

/-- Three-channel matrix created from a byte buffer: dimensions and the bytes. -/
structure Mat where
  rows : Nat
  cols : Nat
  data : List Nat
  deriving DecidableEq, Repr

/-- Call `gocv.NewMatFromBytes(rows, cols, gocv.MatTypeCV8UC3, buf)`; the error
result is discarded by the caller. -/
def NewMatFromBytes (rows cols : Nat) (buf : List Nat) : Mat :=
  { rows := rows, cols := cols, data := buf }

/-- Method `Mat.Empty`: the matrix has no elements. -/
def Mat.Empty (m : Mat) : Bool :=
  m.data.isEmpty || m.rows * m.cols == 0

/-- Single-channel 8-bit image, as rows of samples. -/
abbrev Gray := List (List Nat)

/-! ## Reading whole frames -/

/-- Call `io.ReadFull(out, buf)` with `len(buf) = n`, on a stream whose write end
is closed after the bytes `out`.  It returns the `n` bytes and the rest of the
stream when `n` bytes are there, `io.EOF` when no byte could be read, and
`io.ErrUnexpectedEOF` when the stream ended after some but not all bytes (the
bytes read so far are consumed). -/
def ReadFull (out : List Nat) (n : Nat) : Except GoError (List Nat) × List Nat :=
  if n ≤ out.length then (.ok (out.take n), out.drop n)
  else if out = [] then (.error .EOF, [])
  else (.error .ErrUnexpectedEOF, [])

/-! ## Thresholding and dilation -/

/-- Threshold kinds of `gocv.Threshold`. -/
inductive ThresholdType where
  | ThresholdBinary
  | ThresholdBinaryInv
  | ThresholdTrunc
  | ThresholdToZero
  | ThresholdToZeroInv
  deriving DecidableEq, Repr

/-- Per-sample rule of `gocv.Threshold`. -/
def thresholdSample (thresh maxval : Nat) : ThresholdType → Nat → Nat
  | .ThresholdBinary, v => if v > thresh then maxval else 0
  | .ThresholdBinaryInv, v => if v > thresh then 0 else maxval
  | .ThresholdTrunc, v => if v > thresh then thresh else v
  | .ThresholdToZero, v => if v > thresh then v else 0
  | .ThresholdToZeroInv, v => if v > thresh then 0 else v

/-- Call `gocv.Threshold(src, &dst, thresh, maxval, typ)`: the new value of `dst`. -/
def Threshold (src : Gray) (thresh maxval : Nat) (typ : ThresholdType) : Gray :=
  src.map (List.map (thresholdSample thresh maxval typ))

/-- Shapes of `gocv.GetStructuringElement`. -/
inductive MorphShape where
  | MorphRect
  | MorphCross
  deriving DecidableEq, Repr

/-- Call `gocv.GetStructuringElement(shape, image.Pt(w, h))`: a kernel of `h`
rows and `w` columns; every entry is set for a rectangle, the middle row and
column for a cross. -/
def GetStructuringElement (shape : MorphShape) (ksize : Nat × Nat) : Gray :=
  (List.range ksize.2).map fun y =>
    (List.range ksize.1).map fun x =>
      match shape with
      | .MorphRect => 1
      | .MorphCross => if y = ksize.2 / 2 ∨ x = ksize.1 / 2 then 1 else 0

/-- Sample of `src` at row `y`, column `x`; positions outside the image count
as the lowest value, so that they never win a maximum. -/
def sampleAt (src : Gray) (y x : Int) : Nat :=
  if 0 ≤ y ∧ 0 ≤ x then (src.getD y.toNat []).getD x.toNat 0 else 0

/-- Samples of `src` under the set entries of `kernel` when its centre is put
on row `y`, column `x`. -/
def neighbourhood (src kernel : Gray) (y x : Nat) : List Nat :=
  let ay : Int := (kernel.length / 2 : Nat)
  let ax : Int := ((kernel.headD []).length / 2 : Nat)
  kernel.enum.flatMap fun (ky, krow) =>
    krow.enum.filterMap fun (kx, k) =>
      if k = 0 then none
      else some (sampleAt src ((y : Int) + (ky : Int) - ay) ((x : Int) + (kx : Int) - ax))

/-- Call `gocv.Dilate(src, &dst, kernel)`: every sample becomes the maximum of
its neighbourhood. -/
def Dilate (src kernel : Gray) : Gray :=
  src.enum.map fun (y, row) =>
    row.enum.map fun (x, _) => (neighbourhood src kernel y x).foldl max 0

/-! ## The per-frame pipeline -/

/-- Library operations used by `motion_detect` whose implementation lies outside
the program: `σ` is the state of the MOG2 background subtractor, `κ` the type of
a contour.  `ContourArea` returns a `float64` in Go; contour areas are finite
numbers, taken here as rationals. -/
structure Vision (σ κ : Type) where
  NewBackgroundSubtractorMOG2 : σ
  Apply : σ → Mat → σ × Gray
  FindContours : Gray → List κ
  ContourArea : κ → ℚ
  BoundingRect : κ → Rect

/-- Drawing calls on the frame `img`. -/
inductive DrawOp where
  | DrawContours (i : Nat) (c : RGBA) (thickness : Nat)
  | Rectangle (rect : Rect) (c : RGBA) (thickness : Nat)
  | PutText (text : String) (pt : Nat × Nat) (c : RGBA) (thickness : Nat)
  deriving DecidableEq, Repr

/-- Variables of `motion_detect` that live across loop iterations. -/
structure Detector (σ : Type) where
  mog2 : σ
  imgDelta : Gray
  imgThresh : Gray

/-- Variables assigned inside the contour loop. -/
structure Verdict where
  status : CVStatus
  statusColor : RGBA
  drawn : List DrawOp
  deriving DecidableEq, Repr

/-- Loop `for i := 0; i < contours.Size(); i++ { ... }` from index `i` on, over
the contours not yet visited. -/
def contourLoop {σ κ : Type} (cv : Vision σ κ) : Nat → List κ → Verdict → Verdict
  | _, [], v => v
  | i, c :: rest, v =>
    if cv.ContourArea c < (minArea : ℚ) then
      contourLoop cv (i + 1) rest v
    else
      let statusColor : RGBA := ⟨255, 0, 0, 0⟩
      contourLoop cv (i + 1) rest
        { status := Detected
          statusColor := statusColor
          drawn := v.drawn ++
            [DrawOp.DrawContours i statusColor 2,
             DrawOp.Rectangle (cv.BoundingRect c) ⟨0, 0, 255, 0⟩ 2] }

/-- What one loop iteration of `motion_detect` does with a frame. -/
structure Cycle (κ : Type) where
  /-- the frame passed to `mog2.Apply` -/
  img : Mat
  /-- the variable `imgDelta` after `mog2.Apply` -/
  imgDelta : Gray
  /-- the variable `imgThresh` after `gocv.Threshold` -/
  thresholded : Gray
  /-- the variable `imgThresh` after `gocv.Dilate`, passed to `gocv.FindContours` -/
  mask : Gray
  /-- the result of `gocv.FindContours` -/
  contours : List κ
  /-- the variable `status` at the end of the iteration -/
  status : CVStatus
  /-- the variable `statusColor` at the end of the iteration -/
  statusColor : RGBA
  /-- the drawing calls made on `img`, in order; `window.IMShow` shows `img` with them -/
  drawn : List DrawOp

/-- Body of the loop of `motion_detect` from `var status CVStatus = Stale` to
`gocv.PutText`, for a non-empty frame `img`. -/
def processFrame {σ κ : Type} (cv : Vision σ κ) (d : Detector σ) (img : Mat) :
    Detector σ × Cycle κ :=
  let status : CVStatus := Stale
  let statusColor : RGBA := ⟨0, 255, 0, 0⟩
  -- mog2.Apply(img, &imgDelta)
  let applied := cv.Apply d.mog2 img
  let d1 : Detector σ := { d with mog2 := applied.1, imgDelta := applied.2 }
  -- gocv.Threshold(imgDelta, &imgThresh, 25, 255, gocv.ThresholdBinary)
  let d2 : Detector σ :=
    { d1 with imgThresh := Threshold d1.imgDelta 25 255 .ThresholdBinary }
  -- kernel := gocv.GetStructuringElement(gocv.MorphRect, image.Pt(3, 3))
  let kernel := GetStructuringElement .MorphRect (3, 3)
  -- gocv.Dilate(imgThresh, &imgThresh, kernel)
  let d3 : Detector σ := { d2 with imgThresh := Dilate d2.imgThresh kernel }
  -- contours := gocv.FindContours(imgThresh, ...)
  let contours := cv.FindContours d3.imgThresh
  let v := contourLoop cv 0 contours { status := status, statusColor := statusColor, drawn := [] }
  -- gocv.PutText(&img, string(status), image.Pt(10, 20), ..., statusColor, 2)
  let drawn := v.drawn ++ [DrawOp.PutText v.status (10, 20) v.statusColor 2]
  (d3,
   { img := img
     imgDelta := d1.imgDelta
     thresholded := d2.imgThresh
     mask := d3.imgThresh
     contours := contours
     status := v.status
     statusColor := v.statusColor
     drawn := drawn })

/-! ## Channels and the detection loop -/

/-- Channel of errors: its capacity, the values queued in its buffer, and the
number of goroutines waiting to receive from it. -/
structure Chan where
  cap : Nat
  queued : List GoError
  receivers : Nat
  deriving DecidableEq, Repr

/-- Call `make(chan error)` inside a function: an unbuffered channel that no
other goroutine holds, so none can be receiving from it. -/
def Chan.make : Chan := { cap := 0, queued := [], receivers := 0 }

/-- Statement `ch <- v`: the channel after the send, or `none` when the send
cannot complete (buffer full and no receiver). -/
def Chan.send (ch : Chan) (v : GoError) : Option Chan :=
  if ch.queued.length < ch.cap then some { ch with queued := ch.queued ++ [v] }
  else if 0 < ch.receivers then some ch
  else none

/-- How a run of the loop of `motion_detect` ends. -/
inductive Stop where
  /-- blocked in `done <- err`, which can never complete -/
  | blockedOnDone (err : GoError)
  /-- left the loop by `break` and returned `done` -/
  | returned
  /-- the model ran out of fuel: the loop is still running -/
  | outOfFuel
  deriving DecidableEq, Repr

/-- Observable behaviour of a run of `motion_detect`. -/
structure Run (κ : Type) where
  /-- the frames processed, in order -/
  cycles : List (Cycle κ)
  /-- the errors offered on `done`, in order -/
  sends : List GoError
  /-- the number of sends on the global `cancel` channel -/
  cancels : Nat
  stop : Stop

/-- Run that starts with cycle `c` and goes on as `r`. -/
def Run.after {κ : Type} (c : Cycle κ) (r : Run κ) : Run κ :=
  { r with cycles := c :: r.cycles }

/-- Loop `for { ... }` of `motion_detect`: `done` is the channel, `d` the
variables that live across iterations, `out` the bytes still to come on the
reader before it is closed, `keys` the results of the calls `window.WaitKey(1)`
still to come (no key, `-1`, once the list is used up). -/
def motion_loop {σ κ : Type} (cv : Vision σ κ) :
    Nat → Chan → Detector σ → List Nat → List Int → Run κ
  | 0, _, _, _, _ => { cycles := [], sends := [], cancels := 0, stop := .outOfFuel }
  | fuel + 1, done, d, out, keys =>
    match ReadFull out (frameX * frameY * 3) with
    | (.error err, out1) =>
      -- done <- err
      match done.send err with
      | none => { cycles := [], sends := [err], cancels := 0, stop := .blockedOnDone err }
      | some done1 =>
        -- continue
        let r := motion_loop cv fuel done1 d out1 keys
        { r with sends := err :: r.sends }
    | (.ok buf, out1) =>
      let img := NewMatFromBytes frameY frameX buf
      if img.Empty then
        -- continue
        motion_loop cv fuel done d out1 keys
      else
        let step := processFrame cv d img
        -- window.IMShow(img); if window.WaitKey(1) == 27 { break }
        match keys with
        | [] => (motion_loop cv fuel done step.1 out1 []).after step.2
        | k :: keys1 =>
          if k = 27 then { cycles := [step.2], sends := [], cancels := 0, stop := .returned }
          else (motion_loop cv fuel done step.1 out1 keys1).after step.2

/-- Function `motion_detect(out)`: the channel `done` and the matrices are
created, then the loop runs in the calling goroutine. -/
def motion_detect {σ κ : Type} (cv : Vision σ κ) (fuel : Nat) (out : List Nat)
    (keys : List Int) : Run κ :=
  motion_loop cv fuel Chan.make
    { mog2 := cv.NewBackgroundSubtractorMOG2, imgDelta := [], imgThresh := [] } out keys

/-! ## Reading the session description: `stdin` -/

/-- Predicate `unicode.IsSpace`, the white space that `strings.TrimSpace` removes. -/
def isSpace (c : Char) : Bool :=
  let v := c.toNat
  (0x09 ≤ v && v ≤ 0x0D) || v == 0x20 || v == 0x85 || v == 0xA0 || v == 0x1680 ||
    (0x2000 ≤ v && v ≤ 0x200A) || v == 0x2028 || v == 0x2029 || v == 0x202F ||
    v == 0x205F || v == 0x3000

/-- Call `strings.TrimSpace(s)`: leading and trailing white space removed. -/
def TrimSpace (s : List Char) : List Char :=
  (s.dropWhile isSpace).rdropWhile isSpace

/-- Call `r.ReadString(delim)` on a reader with the text `buf` left before the
end of input: the text up to and including the first `delim`, or, when there
is no `delim`, what is left together with `io.EOF`; and the text left after
the call. -/
def ReadString (buf : List Char) (delim : Char) :
    (List Char × Option GoError) × List Char :=
  match buf.span (fun c => c != delim) with
  | (line, []) => ((line, some .EOF), [])
  | (line, d :: rest) => ((line ++ [d], none), rest)

/-- Bytes of one code point in a Go string (UTF-8). -/
def utf8Bytes (c : Char) : List Nat :=
  let v := c.toNat
  if v < 0x80 then [v]
  else if v < 0x800 then [0xC0 + v / 64, 0x80 + v % 64]
  else if v < 0x10000 then [0xE0 + v / 4096, 0x80 + v / 64 % 64, 0x80 + v % 64]
  else [0xF0 + v / 262144, 0x80 + v / 4096 % 64, 0x80 + v / 64 % 64, 0x80 + v % 64]

/-- Conversion `[]byte(in)`. -/
def bytesOf (s : List Char) : List Nat :=
  s.flatMap utf8Bytes

/-- How a call of `stdin` ends. -/
inductive Ret where
  /-- returned `nil` -/
  | nil
  /-- returned the error `e` -/
  | err (e : GoError)
  /-- run-time panic: index out of range -/
  | panicIndexOutOfRange
  /-- the model ran out of fuel: the read loop is still running -/
  | running
  deriving DecidableEq, Repr

/-- Outcome of `stdin`: how it ends and the bytes handed to `json.Unmarshal`,
if it was called. -/
structure StdinResult where
  ret : Ret
  unmarshalled : Option (List Nat)
  deriving DecidableEq, Repr

/-- Read loop of `stdin`: `.ok s` when the loop is left by `break` with
`in = s`. -/
def stdinLoop : Nat → List Char → Except Ret (List Char)
  | 0, _ => .error .running
  | fuel + 1, buf =>
    match ReadString buf '\n' with
    | ((s, err), rest) =>
      -- if err != io.EOF { if err != nil { return err } }
      match (if err = some GoError.EOF then none else err) with
      | some e => .error (.err e)
      | none =>
        let s := TrimSpace s
        if s.length > 0 then .ok s else stdinLoop fuel rest

/-- Function `stdin(text, obj)` on the standard input `input`; `Unmarshal b` is
the error result of `json.Unmarshal(b, obj)`. -/
def stdin (Unmarshal : List Nat → Option GoError) (fuel : Nat) (input : List Char) :
    StdinResult :=
  match stdinLoop fuel input with
  | .error r => { ret := r, unmarshalled := none }
  | .ok s =>
    let b := bytesOf s
    -- if len(b) < 0 || b[0] != 0x7b
    if b.length < 0 then { ret := .err (.errorf "invalid input"), unmarshalled := none }
    else
      match b with
      | [] => { ret := .panicIndexOutOfRange, unmarshalled := none }
      | b0 :: _ =>
        if b0 ≠ 0x7b then { ret := .err (.errorf "invalid input"), unmarshalled := none }
        else
          match Unmarshal b with
          | some e => { ret := .err e, unmarshalled := some b }
          | none => { ret := .nil, unmarshalled := some b }

/-! ## The stages and their wiring in `main` -/

/-- The three stages started by `main`. -/
inductive Stage where
  | webrtc_conn
  | video_capture
  | motion_detect
  deriving DecidableEq, Repr

/-- One end of a pipe created by `io.Pipe()`: the pipe and which end it is. -/
structure PipeEnd where
  pipe : Nat
  writeEnd : Bool
  deriving DecidableEq, Repr

/-- Call `io.Pipe()` creating pipe number `n`: its read end and its write end. -/
def Pipe (n : Nat) : PipeEnd × PipeEnd :=
  ({ pipe := n, writeEnd := false }, { pipe := n, writeEnd := true })

/-- A stage reading from or writing to a pipe end. -/
structure Use where
  stage : Stage
  stream : PipeEnd
  deriving DecidableEq, Repr

/-- Channel operations and panics of a stage, in program order. -/
inductive Effect where
  | logPrintln (text : String)
  | sendDone (err : Option GoError)
  | closeDone
  | sendCancel
  | writeRTP (packet : Nat)
  | panic (err : GoError)
  deriving DecidableEq, Repr

/-- Stage `webrtc_conn(in)`: `ivfwriter.NewWith(in)` makes `in` the sink of the
container writer. -/
def webrtc_conn (sink : PipeEnd) : List Use :=
  [{ stage := .webrtc_conn, stream := sink }]

/-- Handler passed to `peerConn.OnTrack`, loop `for { ReadRTP; WriteRTP }`: each
element of `events` gives the result of `track.ReadRTP()` and the error result
of `ivfWriter.WriteRTP(rtp)` of one iteration. -/
def OnTrack : List (Except GoError Nat × Option GoError) → List Effect
  | [] => []
  | (.error err, _) :: _ => [.panic err]
  | (.ok rtp, some err) :: _ => [.writeRTP rtp, .panic err]
  | (.ok rtp, none) :: rest => .writeRTP rtp :: OnTrack rest

/-- Stage `video_capture(w, r)`: ffmpeg is run with `WithOutput(w)` and
`WithInput(r)`. -/
def video_capture (w r : PipeEnd) : List Use :=
  [{ stage := .video_capture, stream := w }, { stage := .video_capture, stream := r }]

/-- Goroutine of `video_capture` once `Run()` has returned `err`. -/
def video_capture_done (err : Option GoError) : List Effect :=
  [.logPrintln "ffmpeg process1 done", .sendDone err, .closeDone] ++
    (if err ≠ none then [.sendCancel] else [])

/-- Stage `motion_detect(out)`: frames are read from `out`. -/
def motion_detect_reads (out : PipeEnd) : List Use :=
  [{ stage := .motion_detect, stream := out }]

/-- Wiring made by `main`: `r, w := io.Pipe()`, then `webrtc_conn(w)`,
`video_capture(w, r)` and `motion_detect(r)`. -/
def main_wiring : List Use :=
  let r := (Pipe 0).1
  let w := (Pipe 0).2
  webrtc_conn w ++ video_capture w r ++ motion_detect_reads r

/-- Stages writing to pipe `n` in a wiring. -/
def producers (wiring : List Use) (n : Nat) : List Stage :=
  (wiring.filter fun u => u.stream.pipe == n && u.stream.writeEnd).map Use.stage

/-- Stages reading from pipe `n` in a wiring. -/
def consumers (wiring : List Use) (n : Nat) : List Stage :=
  (wiring.filter fun u => u.stream.pipe == n && !u.stream.writeEnd).map Use.stage

/-- The two cases of the `select` in `main`. -/
inductive Arm where
  | video_capture
  | motion_detect
  deriving DecidableEq, Repr

/-- A line written by `log.Println(tag, value)`. -/
structure LogLine where
  tag : String
  value : Option GoError
  deriving DecidableEq, Repr

/-- Function `main` from the call of `webrtc_conn` on: `err` is the result of
`webrtc_conn(w)`, and each element of `received` is a case of the `select` that
fired together with the value received on its channel.  Both cases are
`case <-ch:`, which discards the value, and log the variable `err`. -/
def main (err : Option GoError) (received : List (Arm × Option GoError)) : List LogLine :=
  (if err ≠ none then [{ tag := "[webrtc_conn] error:", value := err }] else []) ++
    received.map fun p =>
      match p.1 with
      | .video_capture => { tag := "[video_capture] error:", value := err }
      | .motion_detect => { tag := "[motion_detect] error:", value := err }

/-! ## Reference definitions used to state the properties -/

/-- Contours kept by the area filter, each with its index in discovery order. -/
def surviving {σ κ : Type} (cv : Vision σ κ) (contours : List κ) : List (Nat × κ) :=
  contours.enum.filter fun p => decide ((minArea : ℚ) ≤ cv.ContourArea p.2)

/-- Drawing calls for one kept contour: its outline, then its bounding rectangle. -/
def outlineAndBox {σ κ : Type} (cv : Vision σ κ) (p : Nat × κ) : List DrawOp :=
  [DrawOp.DrawContours p.1 ⟨255, 0, 0, 0⟩ 2,
   DrawOp.Rectangle (cv.BoundingRect p.2) ⟨0, 0, 255, 0⟩ 2]

/-- State of the background model after `mog2.Apply` has been called on each
of `frames` in order, starting from state `m0`. -/
def modelAfter {σ κ : Type} (cv : Vision σ κ) (m0 : σ) (frames : List Mat) : σ :=
  frames.foldl (fun m f => (cv.Apply m f).1) m0

/-- The `i`-th consecutive chunk of `frameX*frameY*3` bytes of a stream. -/
def chunk (out : List Nat) (i : Nat) : List Nat :=
  (out.drop (i * (frameX * frameY * 3))).take (frameX * frameY * 3)

/-- Number of frames shown when `m` whole frames are available and
`window.WaitKey(1)` returns `keys`: the loop is left after the frame at which
27 is returned. -/
def framesUntilEsc : List Int → Nat → Nat
  | _, 0 => 0
  | [], m + 1 => m + 1
  | k :: ks, m + 1 => if k = 27 then 1 else framesUntilEsc ks m + 1

/-- The blank lines `blanks`, each ended by a newline, followed by `line` and
`tail`. -/
def inputText (blanks : List (List Char)) (line tail : List Char) : List Char :=
  (blanks.flatMap fun l => l ++ ['\n']) ++ (line ++ tail)

/-! ## Sample inputs -/

/-- A frame buffer whose bytes all have the value `v`. -/
def frameOf (v : Nat) : List Nat :=
  List.replicate (frameX * frameY * 3) v

/-- Sample library operations: the response of the background model is one
sample, the first byte of the frame; a mask whose sample is 255 has three
contours, of areas 100, 5000 and 3000, any other mask has one of area 100. -/
def sampleVision : Vision Unit Nat where
  NewBackgroundSubtractorMOG2 := ()
  Apply := fun _ m => ((), [[m.data.headD 0]])
  FindContours := fun g => if sampleAt g 0 0 = 255 then [100, 5000, 3000] else [100]
  ContourArea := fun k => (k : ℚ)
  BoundingRect := fun k => ⟨0, 0, k, 1⟩

/-- The variables of `motion_detect` before its loop, for the sample operations. -/
def sampleStart : Detector Unit :=
  { mog2 := sampleVision.NewBackgroundSubtractorMOG2, imgDelta := [], imgThresh := [] }

/-- First cycle of the sample run: a frame of bytes 255. -/
def sampleCycleA : Cycle Nat :=
  (processFrame sampleVision sampleStart (NewMatFromBytes frameY frameX (frameOf 255))).2

/-- Second cycle of the sample run: a frame of bytes 0. -/
def sampleCycleB : Cycle Nat :=
  (processFrame sampleVision
    (processFrame sampleVision sampleStart (NewMatFromBytes frameY frameX (frameOf 255))).1
    (NewMatFromBytes frameY frameX (frameOf 0))).2

/-! ## Facts about reading frames -/

theorem frameBytes_pos : 0 < frameX * frameY * 3 := by
  norm_num [frameX, frameY]

theorem ReadFull_ok (out : List Nat) (n : Nat) (h : n ≤ out.length) :
    ReadFull out n = (.ok (out.take n), out.drop n) := by
  simp [ReadFull, h]

theorem ReadFull_eof (n : Nat) (h : 0 < n) : ReadFull [] n = (.error .EOF, []) := by
  have : ¬ n ≤ 0 := by omega
  simp [ReadFull, this]

theorem ReadFull_short (out : List Nat) (n : Nat) (h0 : out ≠ []) (h : out.length < n) :
    ReadFull out n = (.error .ErrUnexpectedEOF, []) := by
  have : ¬ n ≤ out.length := by omega
  simp [ReadFull, this, h0]

theorem send_make (e : GoError) : Chan.make.send e = none := by
  simp [Chan.send, Chan.make]

theorem frame_not_empty (out : List Nat) (h : frameX * frameY * 3 ≤ out.length) :
    (NewMatFromBytes frameY frameX (out.take (frameX * frameY * 3))).Empty = false := by
  have hpos := frameBytes_pos
  have hne : out.take (frameX * frameY * 3) ≠ [] := by
    intro hnil
    have hl := congrArg List.length hnil
    rw [List.length_take, Nat.min_eq_left h, List.length_nil] at hl
    omega
  have hdim : ¬ (frameY * frameX = 0) := by norm_num [frameX, frameY]
  simp [Mat.Empty, NewMatFromBytes, hne, hdim]

/-- A failed read in the loop started by `motion_detect`: the send on `done`
cannot complete. -/
theorem motion_loop_eof {σ κ : Type} (cv : Vision σ κ) (fuel : Nat) (d : Detector σ)
    (keys : List Int) :
    motion_loop cv (fuel + 1) Chan.make d [] keys =
      { cycles := [], sends := [.EOF], cancels := 0, stop := .blockedOnDone .EOF } := by
  rw [motion_loop, ReadFull_eof _ frameBytes_pos]
  simp [send_make]

theorem motion_loop_short {σ κ : Type} (cv : Vision σ κ) (fuel : Nat) (d : Detector σ)
    (out : List Nat) (keys : List Int) (h0 : out ≠ [])
    (h : out.length < frameX * frameY * 3) :
    motion_loop cv (fuel + 1) Chan.make d out keys =
      { cycles := [], sends := [.ErrUnexpectedEOF], cancels := 0,
        stop := .blockedOnDone .ErrUnexpectedEOF } := by
  rw [motion_loop, ReadFull_short _ _ h0 h]
  simp [send_make]

/-- A whole frame is there and `window.WaitKey(1)` returns 27. -/
theorem motion_loop_esc {σ κ : Type} (cv : Vision σ κ) (fuel : Nat) (done : Chan)
    (d : Detector σ) (out : List Nat) (keys : List Int)
    (h : frameX * frameY * 3 ≤ out.length) :
    motion_loop cv (fuel + 1) done d out (27 :: keys) =
      { cycles := [(processFrame cv d
          (NewMatFromBytes frameY frameX (out.take (frameX * frameY * 3)))).2],
        sends := [], cancels := 0, stop := .returned } := by
  rw [motion_loop, ReadFull_ok _ _ h]
  simp [frame_not_empty out h]

/-- A whole frame is there and `window.WaitKey(1)` returns a key other than 27. -/
theorem motion_loop_key {σ κ : Type} (cv : Vision σ κ) (fuel : Nat) (done : Chan)
    (d : Detector σ) (out : List Nat) (k : Int) (keys : List Int)
    (h : frameX * frameY * 3 ≤ out.length) (hk : k ≠ 27) :
    motion_loop cv (fuel + 1) done d out (k :: keys) =
      (motion_loop cv fuel done
        (processFrame cv d
          (NewMatFromBytes frameY frameX (out.take (frameX * frameY * 3)))).1
        (out.drop (frameX * frameY * 3)) keys).after
        (processFrame cv d
          (NewMatFromBytes frameY frameX (out.take (frameX * frameY * 3)))).2 := by
  rw [motion_loop, ReadFull_ok _ _ h]
  simp [frame_not_empty out h, hk]

/-- A whole frame is there and no key results are left. -/
theorem motion_loop_nokey {σ κ : Type} (cv : Vision σ κ) (fuel : Nat) (done : Chan)
    (d : Detector σ) (out : List Nat)
    (h : frameX * frameY * 3 ≤ out.length) :
    motion_loop cv (fuel + 1) done d out [] =
      (motion_loop cv fuel done
        (processFrame cv d
          (NewMatFromBytes frameY frameX (out.take (frameX * frameY * 3)))).1
        (out.drop (frameX * frameY * 3)) []).after
        (processFrame cv d
          (NewMatFromBytes frameY frameX (out.take (frameX * frameY * 3)))).2 := by
  rw [motion_loop, ReadFull_ok _ _ h]
  simp [frame_not_empty out h]

theorem ReadFull_err (out : List Nat) (n : Nat) (h : ¬ n ≤ out.length) :
    ∃ e, ReadFull out n = (.error e, []) := by
  by_cases h0 : out = []
  · subst h0
    exact ⟨.EOF, by rw [ReadFull, if_neg h]; simp⟩
  · exact ⟨.ErrUnexpectedEOF, by simp [ReadFull, h, h0]⟩

/-! ## Facts about the contour loop -/

theorem contourLoop_drawn {σ κ : Type} (cv : Vision σ κ) (cs : List κ) :
    ∀ (i : Nat) (v : Verdict),
      (contourLoop cv i cs v).drawn =
        v.drawn ++ ((cs.enumFrom i).filter
          fun p => decide ((minArea : ℚ) ≤ cv.ContourArea p.2)).flatMap (outlineAndBox cv) := by
  induction cs with
  | nil => intro i v; simp [contourLoop]
  | cons c rest ih =>
    intro i v
    by_cases h : cv.ContourArea c < (minArea : ℚ)
    · have h2 : ¬ ((minArea : ℚ) ≤ cv.ContourArea c) := not_le.mpr h
      simp [contourLoop, h, h2, ih, List.enumFrom_cons, List.filter_cons]
    · have h2 : (minArea : ℚ) ≤ cv.ContourArea c := not_lt.mp h
      simp [contourLoop, h, h2, ih, List.enumFrom_cons, List.filter_cons, outlineAndBox]

theorem contourLoop_status {σ κ : Type} (cv : Vision σ κ) (cs : List κ) :
    ∀ (i : Nat) (v : Verdict),
      (contourLoop cv i cs v).status =
        if ∃ c ∈ cs, (minArea : ℚ) ≤ cv.ContourArea c then Detected else v.status := by
  induction cs with
  | nil => intro i v; simp [contourLoop]
  | cons c rest ih =>
    intro i v
    by_cases h : cv.ContourArea c < (minArea : ℚ)
    · have h2 : ¬ ((minArea : ℚ) ≤ cv.ContourArea c) := not_le.mpr h
      simp [contourLoop, h, h2, ih]
    · have h2 : (minArea : ℚ) ≤ cv.ContourArea c := not_lt.mp h
      simp [contourLoop, h, h2, ih]

theorem contourLoop_statusColor {σ κ : Type} (cv : Vision σ κ) (cs : List κ) :
    ∀ (i : Nat) (v : Verdict),
      (contourLoop cv i cs v).statusColor =
        if ∃ c ∈ cs, (minArea : ℚ) ≤ cv.ContourArea c then ⟨255, 0, 0, 0⟩
        else v.statusColor := by
  induction cs with
  | nil => intro i v; simp [contourLoop]
  | cons c rest ih =>
    intro i v
    by_cases h : cv.ContourArea c < (minArea : ℚ)
    · have h2 : ¬ ((minArea : ℚ) ≤ cv.ContourArea c) := not_le.mpr h
      simp [contourLoop, h, h2, ih]
    · have h2 : (minArea : ℚ) ≤ cv.ContourArea c := not_lt.mp h
      simp [contourLoop, h, h2, ih]

theorem Stale_ne_Detected : Stale ≠ Detected := by decide

/-! ## Facts about one loop iteration -/

theorem processFrame_mask {σ κ : Type} (cv : Vision σ κ) (d : Detector σ) (img : Mat) :
    (processFrame cv d img).2.mask =
      Dilate (Threshold (cv.Apply d.mog2 img).2 25 255 .ThresholdBinary)
        (GetStructuringElement .MorphRect (3, 3)) := rfl

theorem processFrame_contours {σ κ : Type} (cv : Vision σ κ) (d : Detector σ) (img : Mat) :
    (processFrame cv d img).2.contours = cv.FindContours (processFrame cv d img).2.mask := rfl

theorem processFrame_img {σ κ : Type} (cv : Vision σ κ) (d : Detector σ) (img : Mat) :
    (processFrame cv d img).2.img = img := rfl

theorem processFrame_status {σ κ : Type} (cv : Vision σ κ) (d : Detector σ) (img : Mat) :
    (processFrame cv d img).2.status =
      if ∃ c ∈ cv.FindContours (processFrame cv d img).2.mask,
          (minArea : ℚ) ≤ cv.ContourArea c then Detected else Stale := by
  simp only [processFrame, contourLoop_status]

theorem processFrame_statusColor {σ κ : Type} (cv : Vision σ κ) (d : Detector σ) (img : Mat) :
    (processFrame cv d img).2.statusColor =
      if ∃ c ∈ cv.FindContours (processFrame cv d img).2.mask,
          (minArea : ℚ) ≤ cv.ContourArea c then ⟨255, 0, 0, 0⟩ else ⟨0, 255, 0, 0⟩ := by
  simp only [processFrame, contourLoop_statusColor]

theorem processFrame_drawn {σ κ : Type} (cv : Vision σ κ) (d : Detector σ) (img : Mat) :
    (processFrame cv d img).2.drawn =
      (surviving cv (cv.FindContours (processFrame cv d img).2.mask)).flatMap (outlineAndBox cv) ++
        [DrawOp.PutText (processFrame cv d img).2.status (10, 20)
          (processFrame cv d img).2.statusColor 2] := by
  simp only [processFrame, contourLoop_drawn, surviving, List.enum, List.nil_append]

/-! ## Facts about the cycles of a run -/

/-- Every cycle of a run is one loop iteration on a buffer of a whole frame. -/
theorem cycle_of_loop {σ κ : Type} (cv : Vision σ κ) (fuel : Nat) :
    ∀ (done : Chan) (d : Detector σ) (out : List Nat) (keys : List Int) (c : Cycle κ),
      c ∈ (motion_loop cv fuel done d out keys).cycles →
      ∃ (d0 : Detector σ) (buf : List Nat),
        buf.length = frameX * frameY * 3 ∧
        c = (processFrame cv d0 (NewMatFromBytes frameY frameX buf)).2 := by
  induction fuel with
  | zero => intro done d out keys c hc; simp [motion_loop] at hc
  | succ fuel ih =>
    intro done d out keys c hc
    by_cases h : frameX * frameY * 3 ≤ out.length
    · have hlen : (out.take (frameX * frameY * 3)).length = frameX * frameY * 3 := by
        rw [List.length_take, Nat.min_eq_left h]
      cases keys with
      | nil =>
        rw [motion_loop_nokey cv fuel done d out h] at hc
        simp only [Run.after, List.mem_cons] at hc
        rcases hc with hc | hc
        · exact ⟨d, _, hlen, hc⟩
        · exact ih _ _ _ _ c hc
      | cons k keys =>
        by_cases hk : k = 27
        · subst hk
          rw [motion_loop_esc cv fuel done d out keys h] at hc
          simp only [List.mem_singleton] at hc
          exact ⟨d, _, hlen, hc⟩
        · rw [motion_loop_key cv fuel done d out k keys h hk] at hc
          simp only [Run.after, List.mem_cons] at hc
          rcases hc with hc | hc
          · exact ⟨d, _, hlen, hc⟩
          · exact ih _ _ _ _ c hc
    · obtain ⟨e, he⟩ := ReadFull_err out _ h
      rw [motion_loop, he] at hc
      cases hs : done.send e with
      | none => simp [hs] at hc
      | some done1 =>
        simp only [hs] at hc
        exact ih _ _ _ _ c hc


theorem loop_short_no_cycles {σ κ : Type} (cv : Vision σ κ) (fuel : Nat) :
    ∀ (done : Chan) (d : Detector σ) (out : List Nat) (keys : List Int),
      out.length < frameX * frameY * 3 →
      (motion_loop cv fuel done d out keys).cycles = [] := by
  induction fuel with
  | zero => intro done d out keys _; simp [motion_loop]
  | succ fuel ih =>
    intro done d out keys h
    obtain ⟨e, he⟩ := ReadFull_err out (frameX * frameY * 3) (Nat.not_le.mpr h)
    rw [motion_loop, he]
    cases hs : done.send e with
    | none => simp only [hs]
    | some done1 =>
      simp only [hs]
      exact ih done1 d [] keys frameBytes_pos

theorem loop_cancels {σ κ : Type} (cv : Vision σ κ) (fuel : Nat) :
    ∀ (done : Chan) (d : Detector σ) (out : List Nat) (keys : List Int),
      (motion_loop cv fuel done d out keys).cancels = 0 := by
  induction fuel with
  | zero => intro done d out keys; simp [motion_loop]
  | succ fuel ih =>
    intro done d out keys
    by_cases h : frameX * frameY * 3 ≤ out.length
    · cases keys with
      | nil =>
        rw [motion_loop_nokey cv fuel done d out h]
        simpa [Run.after] using ih _ _ _ _
      | cons k keys =>
        by_cases hk : k = 27
        · subst hk
          rw [motion_loop_esc cv fuel done d out keys h]
        · rw [motion_loop_key cv fuel done d out k keys h hk]
          simpa [Run.after] using ih _ _ _ _
    · obtain ⟨e, he⟩ := ReadFull_err out _ h
      rw [motion_loop, he]
      cases hs : done.send e with
      | none => simp only [hs]
      | some done1 =>
        simp only [hs]
        exact ih _ _ _ _

/-- The response of each cycle is the output of the background model, in the
state reached through the frames before it, for the frame of the cycle. -/
theorem loop_response {σ κ : Type} (cv : Vision σ κ) (fuel : Nat) :
    ∀ (done : Chan) (d : Detector σ) (out : List Nat) (keys : List Int) (i : Nat)
      (c : Cycle κ),
      (motion_loop cv fuel done d out keys).cycles[i]? = some c →
      c.imgDelta = (cv.Apply (modelAfter cv d.mog2
        (((motion_loop cv fuel done d out keys).cycles.take i).map fun x => x.img))
        c.img).2 := by
  induction fuel with
  | zero => intro done d out keys i c hc; simp [motion_loop] at hc
  | succ fuel ih =>
    intro done d out keys i c hc
    have hstep : ∀ (img : Mat) (r : Run κ),
        (∀ (j : Nat) (c1 : Cycle κ), r.cycles[j]? = some c1 →
          c1.imgDelta = (cv.Apply (modelAfter cv (processFrame cv d img).1.mog2
            ((r.cycles.take j).map fun x => x.img)) c1.img).2) →
        (r.after (processFrame cv d img).2).cycles[i]? = some c →
        c.imgDelta = (cv.Apply (modelAfter cv d.mog2
          ((((r.after (processFrame cv d img).2).cycles).take i).map fun x => x.img))
          c.img).2 := by
      intro img r hr hget
      cases i with
      | zero =>
        simp only [Run.after, List.getElem?_cons_zero, Option.some.injEq] at hget
        subst hget
        rfl
      | succ j =>
        simp only [Run.after, List.getElem?_cons_succ] at hget
        have := hr j c hget
        simpa [Run.after, modelAfter, processFrame] using this
    by_cases h : frameX * frameY * 3 ≤ out.length
    · cases keys with
      | nil =>
        rw [motion_loop_nokey cv fuel done d out h] at hc ⊢
        exact hstep _ _ (fun j c1 h1 => ih _ _ _ _ j c1 h1) hc
      | cons k keys =>
        by_cases hk : k = 27
        · subst hk
          rw [motion_loop_esc cv fuel done d out keys h] at hc ⊢
          cases i with
          | zero =>
            simp only [List.getElem?_cons_zero, Option.some.injEq] at hc
            subst hc
            rfl
          | succ j => simp at hc
        · rw [motion_loop_key cv fuel done d out k keys h hk] at hc ⊢
          exact hstep _ _ (fun j c1 h1 => ih _ _ _ _ j c1 h1) hc
    · obtain ⟨e, he⟩ := ReadFull_err out _ h
      rw [motion_loop, he] at hc ⊢
      cases hs : done.send e with
      | none => simp [hs] at hc
      | some done1 =>
        simp only [hs] at hc ⊢
        exact ih _ _ _ _ i c hc

theorem chunk_zero (out : List Nat) : chunk out 0 = out.take (frameX * frameY * 3) := by
  simp only [chunk, Nat.zero_mul, List.drop_zero]

theorem chunk_drop (out : List Nat) (i : Nat) :
    chunk (out.drop (frameX * frameY * 3)) i = chunk out (i + 1) := by
  simp only [chunk, List.drop_drop]
  congr 2
  ring

theorem range_map_chunk (out : List Nat) (n : Nat) :
    (List.range (n + 1)).map (chunk out) =
      out.take (frameX * frameY * 3) ::
        (List.range n).map (chunk (out.drop (frameX * frameY * 3))) := by
  rw [List.range_succ_eq_map, List.map_cons, chunk_zero, List.map_map]
  refine congrArg _ ?_
  apply List.map_congr_left
  intro i _
  show chunk out (i + 1) = chunk (out.drop (frameX * frameY * 3)) i
  rw [chunk_drop]

/-- The frames handed to `mog2.Apply` by the loop on a stream of `m` whole
frames are the leading chunks of the stream, as many as are shown before 27
is returned by `window.WaitKey(1)`. -/
theorem loop_frames {σ κ : Type} (cv : Vision σ κ) (m : Nat) :
    ∀ (fuel : Nat) (d : Detector σ) (out : List Nat) (keys : List Int),
      out.length = m * (frameX * frameY * 3) → m < fuel →
      (motion_loop cv fuel Chan.make d out keys).cycles.map (fun c => c.img.data) =
        (List.range (framesUntilEsc keys m)).map (chunk out) := by
  induction m with
  | zero =>
    intro fuel d out keys hlen hfuel
    have hout : out = [] := List.eq_nil_of_length_eq_zero (by simpa using hlen)
    subst hout
    obtain ⟨f, rfl⟩ : ∃ f, fuel = f + 1 := ⟨fuel - 1, by omega⟩
    rw [motion_loop_eof]
    cases keys <;> simp [framesUntilEsc]
  | succ m ih =>
    intro fuel d out keys hlen hfuel
    obtain ⟨f, rfl⟩ : ∃ f, fuel = f + 1 := ⟨fuel - 1, by omega⟩
    have h : frameX * frameY * 3 ≤ out.length := by
      rw [hlen]; exact Nat.le_mul_of_pos_left _ (Nat.succ_pos m)
    have hdrop : (out.drop (frameX * frameY * 3)).length = m * (frameX * frameY * 3) := by
      rw [List.length_drop, hlen, Nat.succ_mul]; omega
    cases keys with
    | nil =>
      rw [motion_loop_nokey cv f Chan.make d out h]
      have hfe : framesUntilEsc [] (m + 1) = framesUntilEsc [] m + 1 := by
        cases m <;> simp [framesUntilEsc]
      rw [hfe, range_map_chunk]
      simp only [Run.after, List.map_cons, processFrame_img, NewMatFromBytes]
      rw [ih f _ _ [] hdrop (by omega)]
    | cons k keys =>
      by_cases hk : k = 27
      · subst hk
        rw [motion_loop_esc cv f Chan.make d out keys h]
        have hr : List.range 1 = [0] := rfl
        simp only [framesUntilEsc, if_true, hr, List.map_cons, List.map_nil, chunk_zero,
          processFrame_img, NewMatFromBytes]
      · rw [motion_loop_key cv f Chan.make d out k keys h hk]
        have hfe : framesUntilEsc (k :: keys) (m + 1) = framesUntilEsc keys m + 1 := by
          simp [framesUntilEsc, hk]
        rw [hfe, range_map_chunk]
        simp only [Run.after, List.map_cons, processFrame_img, NewMatFromBytes]
        rw [ih f _ _ keys hdrop (by omega)]

theorem framesUntilEsc_le (m : Nat) : ∀ keys : List Int, framesUntilEsc keys m ≤ m := by
  induction m with
  | zero => intro keys; cases keys <;> simp [framesUntilEsc]
  | succ m ih =>
    intro keys
    cases keys with
    | nil => simp [framesUntilEsc]
    | cons k ks =>
      by_cases hk : k = 27
      · simp [framesUntilEsc, hk]
      · simpa [framesUntilEsc, hk] using ih ks

theorem framesUntilEsc_all (m : Nat) :
    ∀ keys : List Int, (∀ k ∈ keys.take (m - 1), k ≠ 27) → framesUntilEsc keys m = m := by
  induction m with
  | zero => intro keys _; cases keys <;> simp [framesUntilEsc]
  | succ m ih =>
    intro keys hkeys
    cases keys with
    | nil => simp [framesUntilEsc]
    | cons k ks =>
      cases m with
      | zero =>
        by_cases hk : k = 27
        · simp [framesUntilEsc, hk]
        · cases ks <;> simp [framesUntilEsc, hk]
      | succ m =>
        have hk : k ≠ 27 := hkeys k (by simp)
        have hrest : ∀ k1 ∈ ks.take (m + 1 - 1), k1 ≠ 27 := by
          intro k1 hk1
          exact hkeys k1 (by simp at hk1 ⊢; exact Or.inr hk1)
        simp [framesUntilEsc, hk, ih ks hrest]

/-! ## The sample run -/

theorem frameOf_length (v : Nat) : (frameOf v).length = frameX * frameY * 3 := by
  simp [frameOf]

theorem frameOf_headD (v : Nat) : (frameOf v).headD 0 = v := by
  have h : frameX * frameY * 3 = 1857599 + 1 := by norm_num [frameX, frameY]
  rw [frameOf, h, List.replicate_succ]
  rfl

theorem sample_length : (frameOf 255 ++ frameOf 0).length = 2 * (frameX * frameY * 3) := by
  rw [List.length_append, frameOf_length, frameOf_length]; ring

theorem sample_take :
    (frameOf 255 ++ frameOf 0).take (frameX * frameY * 3) = frameOf 255 :=
  List.take_left' (frameOf_length 255)

theorem sample_drop :
    (frameOf 255 ++ frameOf 0).drop (frameX * frameY * 3) = frameOf 0 :=
  List.drop_left' (frameOf_length 255)

theorem frameOf_take (v : Nat) : (frameOf v).take (frameX * frameY * 3) = frameOf v :=
  List.take_of_length_le (le_of_eq (frameOf_length v))

theorem frameOf_drop (v : Nat) : (frameOf v).drop (frameX * frameY * 3) = [] :=
  List.drop_of_length_le (le_of_eq (frameOf_length v))

/-- The sample run: two frames are processed, then the read fails with `io.EOF`
and the loop is blocked in its send on `done`. -/
theorem sample_run (fuel : Nat) :
    motion_detect sampleVision (fuel + 3) (frameOf 255 ++ frameOf 0) [] =
      { cycles := [sampleCycleA, sampleCycleB], sends := [.EOF], cancels := 0,
        stop := .blockedOnDone .EOF } := by
  have h1 : frameX * frameY * 3 ≤ (frameOf 255 ++ frameOf 0).length := by
    rw [sample_length]; omega
  have h2 : frameX * frameY * 3 ≤ (frameOf 0).length := le_of_eq (frameOf_length 0).symm
  rw [motion_detect, motion_loop_nokey _ _ _ _ _ h1, sample_take, sample_drop,
    motion_loop_nokey _ _ _ _ _ h2, frameOf_take, frameOf_drop, motion_loop_eof]
  rfl

theorem sampleCycleA_mask : sampleCycleA.mask = [[255]] := by
  rw [sampleCycleA, processFrame_mask]
  simp only [sampleVision, sampleStart, NewMatFromBytes, frameOf_headD]
  decide

theorem sampleCycleB_mask : sampleCycleB.mask = [[0]] := by
  rw [sampleCycleB, processFrame_mask]
  simp only [sampleVision, NewMatFromBytes, frameOf_headD]
  decide

/-! ## Facts about dilation -/

theorem rect3_kernel :
    GetStructuringElement .MorphRect (3, 3) = [[1, 1, 1], [1, 1, 1], [1, 1, 1]] := by
  decide

/-- Under the 3x3 rectangular kernel the neighbourhood of a position is the
nine samples around it. -/
theorem neighbourhood_rect3 (src : Gray) (y x : Nat) :
    neighbourhood src (GetStructuringElement .MorphRect (3, 3)) y x =
      ([-1, 0, 1] : List Int).flatMap fun dy =>
        ([-1, 0, 1] : List Int).map fun dx =>
          sampleAt src ((y : Int) + dy) ((x : Int) + dx) := by
  have e1 : ∀ a : Int, a + 2 + -1 = a + 1 := by intro a; ring
  have e2 : ∀ a : Int, a - 1 = a + -1 := by intro a; ring
  rw [rect3_kernel]
  simp [neighbourhood, List.enum, List.enumFrom, List.flatMap, List.filterMap_cons, e1, e2]

/-- Inside the image a sample of the dilation is the maximum of its
neighbourhood. -/
theorem Dilate_sample (src kernel : Gray) (y x : Nat) (hy : y < src.length)
    (hx : x < (src.getD y []).length) :
    sampleAt (Dilate src kernel) y x = (neighbourhood src kernel y x).foldl max 0 := by
  have h0 : (0 : Int) ≤ (y : Int) ∧ (0 : Int) ≤ (x : Int) :=
    ⟨Int.ofNat_nonneg y, Int.ofNat_nonneg x⟩
  rw [sampleAt, if_pos h0]
  simp only [Int.toNat_ofNat, Dilate]
  rw [List.getD_eq_getElem?_getD, List.getD_eq_getElem?_getD] at *
  simp [List.getElem?_map, List.enum, hy] at hx ⊢
  rw [List.getElem?_eq_getElem hx]
  simp

/-! ## Facts about `stdin` -/

theorem newline_isSpace : isSpace '\n' = true := by decide

theorem ReadString_line (l rest : List Char) (h : ∀ c ∈ l, c ≠ '\n') :
    ReadString (l ++ '\n' :: rest) '\n' = ((l ++ ['\n'], none), rest) := by
  have hp : ∀ c ∈ l, (fun c : Char => c != '\n') c = true := by
    intro c hc; simpa using h c hc
  simp only [ReadString, List.span_eq_take_drop, List.takeWhile_append_of_pos hp,
    List.dropWhile_append_of_pos hp]
  simp [List.takeWhile_cons, List.dropWhile_cons]

theorem ReadString_eof (l : List Char) (h : ∀ c ∈ l, c ≠ '\n') :
    ReadString l '\n' = ((l, some .EOF), []) := by
  have hp : ∀ c ∈ l, (fun c : Char => c != '\n') c = true := by
    intro c hc; simpa using h c hc
  have ht : l.takeWhile (fun c : Char => c != '\n') = l := List.takeWhile_eq_self_iff.mpr hp
  have hd : l.dropWhile (fun c : Char => c != '\n') = [] := List.dropWhile_eq_nil_iff.mpr hp
  simp only [ReadString, List.span_eq_take_drop, ht, hd]

theorem TrimSpace_blank (l : List Char) (h : ∀ c ∈ l, isSpace c = true) : TrimSpace l = [] := by
  have hd : l.dropWhile isSpace = [] := List.dropWhile_eq_nil_iff.mpr h
  simp [TrimSpace, hd]

theorem dropWhile_isSpace_append (l r : List Char) (h : ∃ c ∈ l, isSpace c = false) :
    (l ++ r).dropWhile isSpace = l.dropWhile isSpace ++ r := by
  induction l with
  | nil => simp at h
  | cons a l ih =>
    by_cases ha : isSpace a = true
    · have h2 : ∃ c ∈ l, isSpace c = false := by
        obtain ⟨c, hc, hcs⟩ := h
        rcases List.mem_cons.mp hc with rfl | hc
        · rw [ha] at hcs; cases hcs
        · exact ⟨c, hc, hcs⟩
      simp [List.dropWhile_cons, ha, ih h2]
    · simp [List.dropWhile_cons, ha]

theorem TrimSpace_newline (l : List Char) (h : ∃ c ∈ l, isSpace c = false) :
    TrimSpace (l ++ ['\n']) = TrimSpace l := by
  rw [TrimSpace, dropWhile_isSpace_append l _ h,
    List.rdropWhile_concat_pos _ _ _ newline_isSpace, TrimSpace]

theorem TrimSpace_ne_nil (l : List Char) (h : ∃ c ∈ l, isSpace c = false) :
    TrimSpace l ≠ [] := by
  intro hnil
  rw [TrimSpace, List.rdropWhile_eq_nil_iff] at hnil
  have hd : l.dropWhile isSpace ≠ [] := by
    intro hd
    obtain ⟨c, hc, hcs⟩ := h
    have := List.dropWhile_eq_nil_iff.mp hd c hc
    rw [hcs] at this; cases this
  have hhead := List.head_dropWhile_not isSpace l hd
  have := hnil _ (List.head_mem hd)
  rw [this] at hhead
  cases hhead

/-- The read loop leaves with a non-empty string only. -/
theorem stdinLoop_ok_ne_nil (fuel : Nat) :
    ∀ (buf s : List Char), stdinLoop fuel buf = .ok s → s ≠ [] := by
  induction fuel with
  | zero => intro buf s h; simp [stdinLoop] at h
  | succ fuel ih =>
    intro buf s h
    rw [stdinLoop] at h
    split at h
    rename_i s0 err rest _
    split at h
    · cases h
    · by_cases hlen : (TrimSpace s0).length > 0
      · simp only [hlen, if_true] at h
        cases h
        exact List.ne_nil_of_length_pos hlen
      · simp only [hlen, if_false] at h
        exact ih _ _ h

theorem utf8Bytes_first (c : Char) :
    ∃ b rest, utf8Bytes c = b :: rest ∧ (b = 0x7b ↔ c = Char.ofNat 0x7b) := by
  have hc : c.toNat = 0x7b ↔ c = Char.ofNat 0x7b := by
    constructor
    · intro h; rw [← Char.ofNat_toNat c, h]
    · intro h; rw [h]; decide
  unfold utf8Bytes
  by_cases h1 : c.toNat < 0x80
  · exact ⟨c.toNat, [], by simp [h1], hc⟩
  · have hne : ¬ c = Char.ofNat 0x7b := by
      intro h; apply h1; rw [hc.mpr h]; decide
    by_cases h2 : c.toNat < 0x800
    · refine ⟨0xC0 + c.toNat / 64, [0x80 + c.toNat % 64], by simp [h1, h2], ?_⟩
      constructor
      · intro h; omega
      · intro h; exact absurd h hne
    · by_cases h3 : c.toNat < 0x10000
      · refine ⟨0xE0 + c.toNat / 4096, [0x80 + c.toNat / 64 % 64, 0x80 + c.toNat % 64],
          by simp [h1, h2, h3], ?_⟩
        constructor
        · intro h; omega
        · intro h; exact absurd h hne
      · refine ⟨0xF0 + c.toNat / 262144,
          [0x80 + c.toNat / 4096 % 64, 0x80 + c.toNat / 64 % 64, 0x80 + c.toNat % 64],
          by simp [h1, h2, h3], ?_⟩
        constructor
        · intro h; omega
        · intro h; exact absurd h hne

theorem bytesOf_first (c : Char) (s : List Char) :
    ∃ b rest, bytesOf (c :: s) = b :: rest ∧ (b = 0x7b ↔ c = Char.ofNat 0x7b) := by
  obtain ⟨b, rest, hb, hiff⟩ := utf8Bytes_first c
  exact ⟨b, rest ++ bytesOf s, by simp [bytesOf, hb], hiff⟩

/-- The read loop skips the blank lines and leaves with the first line that has
a character other than white space, trimmed. -/
theorem stdinLoop_skips_blanks (line tail : List Char)
    (hline : ∀ c ∈ line, c ≠ '\n') (hns : ∃ c ∈ line, isSpace c = false)
    (htail : tail = [] ∨ ∃ t, tail = '\n' :: t) :
    ∀ (blanks : List (List Char)) (fuel : Nat),
      (∀ l ∈ blanks, ∀ c ∈ l, isSpace c = true ∧ c ≠ '\n') → blanks.length < fuel →
      stdinLoop fuel (inputText blanks line tail) = .ok (TrimSpace line) := by
  have hpos : (TrimSpace line).length > 0 :=
    List.length_pos_of_ne_nil (TrimSpace_ne_nil line hns)
  intro blanks
  induction blanks with
  | nil =>
    intro fuel _ hfuel
    obtain ⟨f, rfl⟩ : ∃ f, fuel = f + 1 := ⟨fuel - 1, by simp at hfuel; omega⟩
    rcases htail with rfl | ⟨t, rfl⟩
    · simp only [inputText, List.flatMap_nil, List.nil_append, List.append_nil]
      rw [stdinLoop, ReadString_eof line hline]
      simp [hpos]
    · simp only [inputText, List.flatMap_nil, List.nil_append]
      rw [stdinLoop, ReadString_line line t hline]
      simp [TrimSpace_newline line hns, hpos]
  | cons b blanks ih =>
    intro fuel hblank hfuel
    obtain ⟨f, rfl⟩ : ∃ f, fuel = f + 1 := ⟨fuel - 1, by simp at hfuel; omega⟩
    have hb := hblank b (by simp)
    have hbn : ∀ c ∈ b, c ≠ '\n' := fun c hc => (hb c hc).2
    have hbs : ∀ c ∈ b ++ ['\n'], isSpace c = true := by
      intro c hc
      rcases List.mem_append.mp hc with hc | hc
      · exact (hb c hc).1
      · simp only [List.mem_singleton] at hc
        rw [hc]; exact newline_isSpace
    have hrest : ∀ l ∈ blanks, ∀ c ∈ l, isSpace c = true ∧ c ≠ '\n' :=
      fun l hl => hblank l (List.mem_cons_of_mem _ hl)
    have hin : inputText (b :: blanks) line tail =
        b ++ '\n' :: inputText blanks line tail := by
      simp [inputText]
    rw [hin, stdinLoop, ReadString_line b _ hbn]
    simp only [TrimSpace_blank _ hbs]
    simpa using ih f hrest (by simp at hfuel; omega)

theorem stdinLoop_error_ne_panic (fuel : Nat) :
    ∀ (buf : List Char) (r : Ret), stdinLoop fuel buf = .error r →
      r ≠ .panicIndexOutOfRange := by
  induction fuel with
  | zero =>
    intro buf r h
    simp only [stdinLoop] at h
    cases h
    intro hr; cases hr
  | succ fuel ih =>
    intro buf r h
    rw [stdinLoop] at h
    split at h
    rename_i s0 err rest _
    split at h
    · cases h
      intro hr; cases hr
    · by_cases hlen : (TrimSpace s0).length > 0
      · simp only [hlen, if_true] at h
        cases h
      · simp only [hlen, if_false] at h
        exact ih _ _ h

/-- What `stdin` does once the read loop is left with `in = c :: t`. -/
theorem stdin_after_loop (Unmarshal : List Nat → Option GoError) (fuel : Nat)
    (input : List Char) (c : Char) (t : List Char)
    (h : stdinLoop fuel input = .ok (c :: t)) :
    (c ≠ Char.ofNat 0x7b →
      stdin Unmarshal fuel input =
        { ret := .err (.errorf "invalid input"), unmarshalled := none }) ∧
    (c = Char.ofNat 0x7b →
      (stdin Unmarshal fuel input).unmarshalled = some (bytesOf (c :: t))) ∧
    (stdin Unmarshal fuel input).ret ≠ .panicIndexOutOfRange := by
  obtain ⟨b, rest, hb, hiff⟩ := bytesOf_first c t
  by_cases hc : c = Char.ofNat 0x7b
  · have hb7 : b = 0x7b := hiff.mpr hc
    refine ⟨fun hne => absurd hc hne, fun _ => ?_, ?_⟩
    · rw [stdin, h]
      simp only [hb, hb7]
      cases Unmarshal (0x7b :: rest) <;> simp
    · rw [stdin, h]
      simp only [hb, hb7]
      cases Unmarshal (0x7b :: rest) <;> simp
  · have hb7 : b ≠ 0x7b := fun hEq => hc (hiff.mp hEq)
    have hres : stdin Unmarshal fuel input =
        { ret := .err (.errorf "invalid input"), unmarshalled := none } := by
      rw [stdin, h]
      simp [hb, hb7]
    refine ⟨fun _ => hres, fun hEq => absurd hEq hc, ?_⟩
    rw [hres]
    intro hr; cases hr

theorem stdin_never_panics (Unmarshal : List Nat → Option GoError) (fuel : Nat)
    (input : List Char) : (stdin Unmarshal fuel input).ret ≠ .panicIndexOutOfRange := by
  cases h : stdinLoop fuel input with
  | error r =>
    rw [stdin, h]
    exact stdinLoop_error_ne_panic fuel input r h
  | ok s =>
    cases s with
    | nil => exact absurd rfl (stdinLoop_ok_ne_nil fuel input [] h)
    | cons c t => exact (stdin_after_loop Unmarshal fuel input c t h).2.2

theorem inputText_cons (b : List Char) (blanks : List (List Char)) (line tail : List Char) :
    inputText (b :: blanks) line tail = b ++ '\n' :: inputText blanks line tail := by
  simp [inputText]

/-- Every input with a character other than white space is a sequence of blank
lines followed by a first line that has such a character. -/
theorem exists_first_nonblank_line (n : Nat) :
    ∀ input : List Char, input.length ≤ n → (∃ c ∈ input, isSpace c = false) →
      ∃ (blanks : List (List Char)) (line tail : List Char),
        input = inputText blanks line tail ∧
        (∀ l ∈ blanks, ∀ c ∈ l, isSpace c = true ∧ c ≠ '\n') ∧
        (∀ c ∈ line, c ≠ '\n') ∧ (∃ c ∈ line, isSpace c = false) ∧
        (tail = [] ∨ ∃ t, tail = '\n' :: t) ∧ blanks.length ≤ input.length := by
  induction n with
  | zero =>
    intro input hlen hns
    have hnil : input = [] := List.eq_nil_of_length_eq_zero (Nat.le_zero.mp hlen)
    subst hnil
    simp at hns
  | succ n ih =>
    intro input hlen hns
    have hsplit : input.takeWhile (fun c => c != '\n') ++
        input.dropWhile (fun c => c != '\n') = input := List.takeWhile_append_dropWhile _ _
    have hl : ∀ c ∈ input.takeWhile (fun c => c != '\n'), c ≠ '\n' := by
      intro c hc
      have := List.mem_takeWhile_imp hc
      simpa using this
    have hr : input.dropWhile (fun c => c != '\n') = [] ∨
        ∃ t, input.dropWhile (fun c => c != '\n') = '\n' :: t := by
      cases hd : input.dropWhile (fun c => c != '\n') with
      | nil => exact Or.inl rfl
      | cons a t =>
        right
        have hne : input.dropWhile (fun c => c != '\n') ≠ [] := by rw [hd]; simp
        have hh := List.head_dropWhile_not (fun c => c != '\n') input hne
        simp only [hd, List.head_cons] at hh
        have ha : a = '\n' := by simpa using hh
        exact ⟨t, by rw [ha]⟩
    by_cases hline : ∃ c ∈ input.takeWhile (fun c => c != '\n'), isSpace c = false
    · refine ⟨[], _, _, ?_, ?_, hl, hline, hr, Nat.zero_le _⟩
      · simp [inputText, hsplit]
      · intro l hmem; simp at hmem
    · have hblank : ∀ c ∈ input.takeWhile (fun c => c != '\n'),
          isSpace c = true ∧ c ≠ '\n' := by
        intro c hc
        refine ⟨?_, hl c hc⟩
        by_contra hsp
        exact hline ⟨c, hc, by simpa using hsp⟩
      obtain ⟨c0, hc0, hs0⟩ := hns
      rw [← hsplit] at hc0
      rcases List.mem_append.mp hc0 with hc0 | hc0
      · exact absurd ⟨c0, hc0, hs0⟩ hline
      · rcases hr with hr | ⟨t, hr⟩
        · rw [hr] at hc0; simp at hc0
        · rw [hr] at hc0
          have hc0t : c0 ∈ t := by
            rcases List.mem_cons.mp hc0 with h | h
            · rw [h, newline_isSpace] at hs0; cases hs0
            · exact h
          have hlen_in : input.length =
              (input.takeWhile (fun c => c != '\n')).length + (t.length + 1) := by
            have := congrArg List.length hsplit
            rw [List.length_append, hr, List.length_cons] at this
            exact this.symm
          obtain ⟨blanks, line, tail, hin, hb, hln, hlns, htl, hbl⟩ :=
            ih t (by omega) ⟨c0, hc0t, hs0⟩
          refine ⟨input.takeWhile (fun c => c != '\n') :: blanks, line, tail,
            ?_, ?_, hln, hlns, htl, ?_⟩
          · rw [inputText_cons, ← hin, ← hr, hsplit]
          · intro l hmem
            rcases List.mem_cons.mp hmem with rfl | hmem
            · exact hblank
            · exact hb l hmem
          · simp only [List.length_cons]; omega

theorem blanks_length_le (line tail : List Char) :
    ∀ blanks : List (List Char), blanks.length ≤ (inputText blanks line tail).length := by
  intro blanks
  induction blanks with
  | nil => simp
  | cons b blanks ih =>
    rw [inputText_cons]
    simp only [List.length_cons, List.length_append]
    omega

theorem sample_mem_A :
    sampleCycleA ∈ (motion_detect sampleVision 3 (frameOf 255 ++ frameOf 0) []).cycles := by
  rw [sample_run 0]; simp

theorem sample_mem_B :
    sampleCycleB ∈ (motion_detect sampleVision 3 (frameOf 255 ++ frameOf 0) []).cycles := by
  rw [sample_run 0]; simp

theorem sample_contours_A : sampleVision.FindContours sampleCycleA.mask = [100, 5000, 3000] := by
  rw [sampleCycleA_mask]; decide

theorem sample_contours_B : sampleVision.FindContours sampleCycleB.mask = [100] := by
  rw [sampleCycleB_mask]; decide

/-! ## Verified properties of `motion_detect` -/

/-- C1: for every frame processed by `motion_detect`, the status is `Detected`
exactly when some contour found in the mask of that frame has an area of at
least `minArea`, and it is `Stale` exactly when there is none; nothing of an
earlier frame enters. -/
theorem status_decided_by_frame_contours {σ κ : Type} (cv : Vision σ κ) (fuel : Nat)
    (out : List Nat) (keys : List Int) (c : Cycle κ)
    (hc : c ∈ (motion_detect cv fuel out keys).cycles) :
    (c.status = Detected ↔
      ∃ k ∈ cv.FindContours c.mask, (minArea : ℚ) ≤ cv.ContourArea k) ∧
    (c.status = Stale ↔
      ¬ ∃ k ∈ cv.FindContours c.mask, (minArea : ℚ) ≤ cv.ContourArea k) := by
  obtain ⟨d0, buf, _, rfl⟩ := cycle_of_loop cv fuel _ _ _ _ c hc
  have hst := processFrame_status cv d0 (NewMatFromBytes frameY frameX buf)
  by_cases h : ∃ k ∈ cv.FindContours
      (processFrame cv d0 (NewMatFromBytes frameY frameX buf)).2.mask,
      (minArea : ℚ) ≤ cv.ContourArea k
  · rw [if_pos h] at hst
    refine ⟨⟨fun _ => h, fun _ => hst⟩, ⟨fun hs => ?_, fun hn => absurd h hn⟩⟩
    exact absurd (hs.symm.trans hst) Stale_ne_Detected
  · rw [if_neg h] at hst
    refine ⟨⟨fun hd => ?_, fun hex => absurd hex h⟩, ⟨fun _ => h, fun _ => hst⟩⟩
    exact absurd (hst.symm.trans hd) Stale_ne_Detected

/-- In the sample run a frame with status `Detected` is followed by a frame
without a contour of area 3000 or more, whose status is `Stale`. -/
theorem status_decided_by_frame_contours_witness :
    (motion_detect sampleVision 3 (frameOf 255 ++ frameOf 0) []).cycles =
      [sampleCycleA, sampleCycleB] ∧
    sampleCycleA.status = Detected ∧ sampleCycleB.status = Stale := by
  refine ⟨by rw [sample_run 0], ?_, ?_⟩
  · refine (status_decided_by_frame_contours sampleVision 3 _ [] sampleCycleA
      sample_mem_A).1.mpr ?_
    rw [sample_contours_A]
    exact ⟨5000, by simp, by norm_num [sampleVision, minArea]⟩
  · refine (status_decided_by_frame_contours sampleVision 3 _ [] sampleCycleB
      sample_mem_B).2.mpr ?_
    rw [sample_contours_B]
    rintro ⟨k, hk, hle⟩
    simp only [List.mem_singleton] at hk
    subst hk
    norm_num [sampleVision, minArea] at hle

/-- C2: for every frame processed by `motion_detect`, the drawing calls on the
frame are the outline and the bounding rectangle of each contour whose area is
not below `minArea`, in discovery order, followed by the status label, and
nothing else; a single contour of area above `minArea` gives exactly one
annotated region and status `Detected`, a single contour of area below
`minArea` gives none and status `Stale`. -/
theorem annotated_are_exactly_survivors {σ κ : Type} (cv : Vision σ κ) (fuel : Nat)
    (out : List Nat) (keys : List Int) (c : Cycle κ)
    (hc : c ∈ (motion_detect cv fuel out keys).cycles) :
    c.drawn =
      ((cv.FindContours c.mask).enum.filter
          fun p => decide (¬ cv.ContourArea p.2 < (minArea : ℚ))).flatMap
        (fun p => [DrawOp.DrawContours p.1 ⟨255, 0, 0, 0⟩ 2,
                   DrawOp.Rectangle (cv.BoundingRect p.2) ⟨0, 0, 255, 0⟩ 2]) ++
        [DrawOp.PutText c.status (10, 20) c.statusColor 2] ∧
    (∀ k, cv.FindContours c.mask = [k] → (minArea : ℚ) < cv.ContourArea k →
      surviving cv (cv.FindContours c.mask) = [(0, k)] ∧ c.status = Detected ∧
      c.drawn = [DrawOp.DrawContours 0 ⟨255, 0, 0, 0⟩ 2,
                 DrawOp.Rectangle (cv.BoundingRect k) ⟨0, 0, 255, 0⟩ 2,
                 DrawOp.PutText Detected (10, 20) ⟨255, 0, 0, 0⟩ 2]) ∧
    (∀ k, cv.FindContours c.mask = [k] → cv.ContourArea k < (minArea : ℚ) →
      surviving cv (cv.FindContours c.mask) = [] ∧ c.status = Stale ∧
      c.drawn = [DrawOp.PutText Stale (10, 20) ⟨0, 255, 0, 0⟩ 2]) := by
  obtain ⟨d0, buf, _, rfl⟩ := cycle_of_loop cv fuel _ _ _ _ c hc
  have hst := processFrame_status cv d0 (NewMatFromBytes frameY frameX buf)
  have hcol := processFrame_statusColor cv d0 (NewMatFromBytes frameY frameX buf)
  have hdr := processFrame_drawn cv d0 (NewMatFromBytes frameY frameX buf)
  refine ⟨?_, ?_, ?_⟩
  · rw [hdr]
    simp only [surviving, not_lt]
    rfl
  · intro k hk hlt
    have hle : (minArea : ℚ) ≤ cv.ContourArea k := le_of_lt hlt
    have hs : surviving cv [k] = [(0, k)] := by
      simp [surviving, List.enum, List.enumFrom, hle]
    have hex : ∃ c ∈ [k], (minArea : ℚ) ≤ cv.ContourArea c := ⟨k, by simp, hle⟩
    rw [hk] at hst hcol hdr
    rw [if_pos hex] at hst hcol
    rw [hs] at hdr
    refine ⟨by rw [hk]; exact hs, hst, ?_⟩
    rw [hdr, hst, hcol]
    rfl
  · intro k hk hlt
    have hle : ¬ (minArea : ℚ) ≤ cv.ContourArea k := not_le.mpr hlt
    have hs : surviving cv [k] = [] := by
      simp [surviving, List.enum, List.enumFrom, hlt]
    have hex : ¬ ∃ c ∈ [k], (minArea : ℚ) ≤ cv.ContourArea c := by
      rintro ⟨c, hc, h⟩
      simp only [List.mem_singleton] at hc
      subst hc
      exact hle h
    rw [hk] at hst hcol hdr
    rw [if_neg hex] at hst hcol
    rw [hs] at hdr
    refine ⟨by rw [hk]; exact hs, hst, ?_⟩
    rw [hdr, hst, hcol]
    rfl

/-- In the sample run the first frame has contours of areas 100, 5000 and 3000:
the second and the third are annotated, in this order, the first is not. -/
theorem annotated_are_exactly_survivors_witness :
    sampleVision.FindContours sampleCycleA.mask = [100, 5000, 3000] ∧
    sampleCycleA.drawn =
      [DrawOp.DrawContours 1 ⟨255, 0, 0, 0⟩ 2,
       DrawOp.Rectangle ⟨0, 0, 5000, 1⟩ ⟨0, 0, 255, 0⟩ 2,
       DrawOp.DrawContours 2 ⟨255, 0, 0, 0⟩ 2,
       DrawOp.Rectangle ⟨0, 0, 3000, 1⟩ ⟨0, 0, 255, 0⟩ 2,
       DrawOp.PutText sampleCycleA.status (10, 20) sampleCycleA.statusColor 2] := by
  refine ⟨sample_contours_A, ?_⟩
  rw [(annotated_are_exactly_survivors sampleVision 3 _ [] sampleCycleA sample_mem_A).1,
    sample_contours_A]
  norm_num [List.enum, List.enumFrom, List.filter_cons, sampleVision, minArea]

/-- C3: when the stream is closed after `k` bytes, `0 < k < frameX*frameY*3`,
the read of the frame fails with `io.ErrUnexpectedEOF`, this error is what the
loop offers on `done`, and no frame is processed: not by `motion_detect`,
whatever the fuel, and not by the loop in any state of the channel. -/
theorem short_read_never_yields_frame {σ κ : Type} (cv : Vision σ κ) (fuel : Nat)
    (out : List Nat) (keys : List Int)
    (h0 : 0 < out.length) (h : out.length < frameX * frameY * 3) :
    ReadFull out (frameX * frameY * 3) = (.error .ErrUnexpectedEOF, []) ∧
    (motion_detect cv (fuel + 1) out keys).sends = [.ErrUnexpectedEOF] ∧
    (motion_detect cv (fuel + 1) out keys).stop = .blockedOnDone .ErrUnexpectedEOF ∧
    (∀ n, (motion_detect cv n out keys).cycles = []) ∧
    (∀ n done d, (motion_loop cv n done d out keys).cycles = []) := by
  have hne : out ≠ [] := by
    intro hnil; rw [hnil] at h0; exact Nat.lt_irrefl 0 h0
  refine ⟨ReadFull_short out _ hne h, ?_, ?_, ?_, ?_⟩
  · rw [motion_detect, motion_loop_short cv fuel _ out keys hne h]
  · rw [motion_detect, motion_loop_short cv fuel _ out keys hne h]
  · intro n
    exact loop_short_no_cycles cv n _ _ out keys h
  · intro n done d
    exact loop_short_no_cycles cv n done d out keys h

/-- A stream closed after the three bytes 1, 2, 3 gives a short read and no
frame. -/
theorem short_read_never_yields_frame_witness :
    ReadFull [1, 2, 3] (frameX * frameY * 3) = (.error .ErrUnexpectedEOF, []) ∧
    (motion_detect sampleVision 1 [1, 2, 3] []).sends = [.ErrUnexpectedEOF] ∧
    (motion_detect sampleVision 1 [1, 2, 3] []).cycles = [] := by
  have h := short_read_never_yields_frame sampleVision 0 [1, 2, 3] []
    (by decide) (by norm_num [frameX, frameY])
  exact ⟨h.1, h.2.1, h.2.2.2.1 1⟩

/-- C4 evaluated on a stream of exactly one frame that is then closed, with no
key pressed: one frame is processed, the next read fails with `io.EOF`, and the
loop is blocked in `done <- err` for every amount of fuel; it never returns. -/
theorem read_failure_blocks_the_loop {σ κ : Type} (cv : Vision σ κ) (fuel : Nat) :
    (frameOf 0).length = frameX * frameY * 3 ∧
    (motion_detect cv (fuel + 2) (frameOf 0) []).cycles.map (fun c => c.img.data) =
      [frameOf 0] ∧
    (motion_detect cv (fuel + 2) (frameOf 0) []).sends = [.EOF] ∧
    (motion_detect cv (fuel + 2) (frameOf 0) []).stop = .blockedOnDone .EOF ∧
    (motion_detect cv (fuel + 2) (frameOf 0) []).stop ≠ .returned := by
  have h2 : frameX * frameY * 3 ≤ (frameOf 0).length := le_of_eq (frameOf_length 0).symm
  have hrun : motion_detect cv (fuel + 2) (frameOf 0) [] =
      (({ cycles := [], sends := [.EOF], cancels := 0, stop := .blockedOnDone .EOF } :
        Run κ).after
        (processFrame cv
          { mog2 := cv.NewBackgroundSubtractorMOG2, imgDelta := [], imgThresh := [] }
          (NewMatFromBytes frameY frameX (frameOf 0))).2) := by
    rw [motion_detect, motion_loop_nokey _ _ _ _ _ h2, frameOf_take, frameOf_drop,
      motion_loop_eof]
  rw [hrun]
  refine ⟨frameOf_length 0, ?_, rfl, rfl, ?_⟩
  · simp only [Run.after, List.map_cons, List.map_nil, processFrame_img, NewMatFromBytes]
  · simp [Run.after]

/-- C5, the statement as written fails: on a stream of two whole frames, when
`window.WaitKey(1)` returns 27 after the first frame, the loop returns and only
the first chunk has been handed to the background model. -/
theorem esc_leaves_second_chunk_unread :
    (frameOf 255 ++ frameOf 0).length = 2 * (frameX * frameY * 3) ∧
    (motion_detect sampleVision 3 (frameOf 255 ++ frameOf 0) [27]).cycles.map
        (fun c => c.img.data) = [frameOf 255] ∧
    (motion_detect sampleVision 3 (frameOf 255 ++ frameOf 0) [27]).stop = .returned ∧
    [frameOf 255] ≠ (List.range 2).map (chunk (frameOf 255 ++ frameOf 0)) := by
  have h1 : frameX * frameY * 3 ≤ (frameOf 255 ++ frameOf 0).length := by
    rw [sample_length]; omega
  refine ⟨sample_length, ?_, ?_, ?_⟩
  · rw [motion_detect, motion_loop_esc _ _ _ _ _ _ h1, sample_take]
    simp only [List.map_cons, List.map_nil, processFrame_img, NewMatFromBytes]
  · rw [motion_detect, motion_loop_esc _ _ _ _ _ _ h1]
  · intro hEq
    have hl := congrArg List.length hEq
    simp at hl

/-- C5 as amended: on a stream of `m` whole frames the frames handed to the
background model are the leading consecutive chunks of the stream, each once
and in stream order, as many as are shown until `window.WaitKey(1)` returns 27;
they are all `m` chunks when 27 is not returned after one of the first `m - 1`
frames. -/
theorem frames_are_leading_chunks {σ κ : Type} (cv : Vision σ κ) (m fuel : Nat)
    (out : List Nat) (keys : List Int)
    (hlen : out.length = m * (frameX * frameY * 3)) (hfuel : m < fuel) :
    (motion_detect cv fuel out keys).cycles.map (fun c => c.img.data) =
      (List.range (framesUntilEsc keys m)).map
        (fun i => (out.drop (i * (frameX * frameY * 3))).take (frameX * frameY * 3)) ∧
    framesUntilEsc keys m ≤ m ∧
    ((∀ k ∈ keys.take (m - 1), k ≠ 27) →
      (motion_detect cv fuel out keys).cycles.map (fun c => c.img.data) =
        (List.range m).map
          (fun i => (out.drop (i * (frameX * frameY * 3))).take (frameX * frameY * 3))) := by
  have hmain := loop_frames cv m fuel
    { mog2 := cv.NewBackgroundSubtractorMOG2, imgDelta := [], imgThresh := [] }
    out keys hlen hfuel
  refine ⟨hmain, framesUntilEsc_le m keys, ?_⟩
  intro hkeys
  have hall := framesUntilEsc_all m keys hkeys
  rw [hall] at hmain
  exact hmain

/-- On the sample stream of two frames with no key pressed, both chunks are
handed over, in stream order. -/
theorem frames_are_leading_chunks_witness :
    (motion_detect sampleVision 3 (frameOf 255 ++ frameOf 0) []).cycles.map
        (fun c => c.img.data) =
      (List.range 2).map
        (fun i => ((frameOf 255 ++ frameOf 0).drop
          (i * (frameX * frameY * 3))).take (frameX * frameY * 3)) :=
  (frames_are_leading_chunks sampleVision 2 3 (frameOf 255 ++ frameOf 0) []
    sample_length (by decide)).2.2 (by simp)

/-- C8: for every frame processed by `motion_detect`, the mask passed to
`FindContours` is the dilation, with the 3x3 rectangular kernel, of the
thresholded response, where the response is the output of the background model
(in the state reached through the earlier frames) for that frame; the threshold
maps each sample above 25 to 255 and each other sample to 0, so each sample of
the thresholded mask is 0 or 255; each sample of the dilated mask is the
maximum of the nine thresholded samples around it. -/
theorem mask_is_dilated_threshold {σ κ : Type} (cv : Vision σ κ) (fuel : Nat)
    (out : List Nat) (keys : List Int) (i : Nat) (c : Cycle κ)
    (hc : (motion_detect cv fuel out keys).cycles[i]? = some c) :
    c.imgDelta =
      (cv.Apply (modelAfter cv cv.NewBackgroundSubtractorMOG2
        (((motion_detect cv fuel out keys).cycles.take i).map fun x => x.img)) c.img).2 ∧
    c.thresholded = c.imgDelta.map (List.map fun v => if 25 < v then 255 else 0) ∧
    c.mask = Dilate c.thresholded (GetStructuringElement .MorphRect (3, 3)) ∧
    c.contours = cv.FindContours c.mask ∧
    GetStructuringElement .MorphRect (3, 3) = [[1, 1, 1], [1, 1, 1], [1, 1, 1]] ∧
    (∀ row ∈ c.thresholded, ∀ v ∈ row, v = 0 ∨ v = 255) ∧
    (∀ y x : Nat, y < c.thresholded.length → x < (c.thresholded.getD y []).length →
      sampleAt c.mask y x =
        (([-1, 0, 1] : List Int).flatMap fun dy =>
          ([-1, 0, 1] : List Int).map fun dx =>
            sampleAt c.thresholded ((y : Int) + dy) ((x : Int) + dx)).foldl max 0) := by
  have hresp := loop_response cv fuel _ _ _ _ i c hc
  have hmem : c ∈ (motion_detect cv fuel out keys).cycles := List.getElem?_mem hc
  obtain ⟨d0, buf, _, rfl⟩ := cycle_of_loop cv fuel _ _ _ _ c hmem
  have hth : (processFrame cv d0 (NewMatFromBytes frameY frameX buf)).2.thresholded =
      (processFrame cv d0 (NewMatFromBytes frameY frameX buf)).2.imgDelta.map
        (List.map fun v => if 25 < v then 255 else 0) := by
    simp only [processFrame, Threshold]
    rfl
  have hmask : (processFrame cv d0 (NewMatFromBytes frameY frameX buf)).2.mask =
      Dilate (processFrame cv d0 (NewMatFromBytes frameY frameX buf)).2.thresholded
        (GetStructuringElement .MorphRect (3, 3)) := rfl
  refine ⟨hresp, hth, hmask, rfl, rect3_kernel, ?_, ?_⟩
  · rw [hth]
    intro row hrow v hv
    simp only [List.mem_map] at hrow
    obtain ⟨r0, _, rfl⟩ := hrow
    simp only [List.mem_map] at hv
    obtain ⟨v0, _, rfl⟩ := hv
    by_cases h25 : 25 < v0
    · right; simp [h25]
    · left; simp [h25]
  · intro y x hy hx
    rw [hmask, Dilate_sample _ _ y x hy hx, neighbourhood_rect3]

/-- In the sample run the second frame, of bytes 0, gives the response 0 of the
background model: the thresholded mask and the dilated mask are the single
sample 0. -/
theorem mask_is_dilated_threshold_witness :
    (motion_detect sampleVision 3 (frameOf 255 ++ frameOf 0) []).cycles[1]? =
      some sampleCycleB ∧
    sampleCycleB.thresholded =
      sampleCycleB.imgDelta.map (List.map fun v => if 25 < v then 255 else 0) ∧
    sampleCycleB.mask =
      Dilate sampleCycleB.thresholded (GetStructuringElement .MorphRect (3, 3)) ∧
    sampleCycleB.mask = [[0]] := by
  have hget : (motion_detect sampleVision 3 (frameOf 255 ++ frameOf 0) []).cycles[1]? =
      some sampleCycleB := by
    rw [sample_run 0]; rfl
  have h := mask_is_dilated_threshold sampleVision 3 _ [] 1 sampleCycleB hget
  exact ⟨hget, h.2.1, h.2.2.1, sampleCycleB_mask⟩

/-! ## Verified property of `stdin` -/

/-- C10: every standard input that has a character other than white space
consists of blank lines followed by a first line with such a character; the
read loop of `stdin` is left at that line, with `in` the trimmed line, which is
not empty; if the trimmed line does not begin with an opening brace, `stdin`
returns the error `invalid input` and `json.Unmarshal` is not called; and on no
input at all does the access `b[0]` go out of range. -/
theorem stdin_stops_at_first_nonblank_line (Unmarshal : List Nat → Option GoError)
    (input : List Char) (fuel : Nat)
    (hns : ∃ c ∈ input, isSpace c = false) (hfuel : input.length < fuel) :
    (∃ (blanks : List (List Char)) (line tail : List Char),
      input = (blanks.flatMap fun l => l ++ ['\n']) ++ (line ++ tail) ∧
      (∀ l ∈ blanks, ∀ c ∈ l, isSpace c = true ∧ c ≠ '\n') ∧
      (∀ c ∈ line, c ≠ '\n') ∧ (∃ c ∈ line, isSpace c = false) ∧
      (tail = [] ∨ ∃ t, tail = '\n' :: t)) ∧
    (∀ (blanks : List (List Char)) (line tail : List Char),
      input = (blanks.flatMap fun l => l ++ ['\n']) ++ (line ++ tail) →
      (∀ l ∈ blanks, ∀ c ∈ l, isSpace c = true ∧ c ≠ '\n') →
      (∀ c ∈ line, c ≠ '\n') → (∃ c ∈ line, isSpace c = false) →
      (tail = [] ∨ ∃ t, tail = '\n' :: t) →
      stdinLoop fuel input = .ok (TrimSpace line) ∧
      TrimSpace line ≠ [] ∧
      ((TrimSpace line).head? ≠ some (Char.ofNat 0x7b) →
        stdin Unmarshal fuel input =
          { ret := .err (.errorf "invalid input"), unmarshalled := none })) ∧
    (∀ (n : Nat) (text : List Char),
      (stdin Unmarshal n text).ret ≠ .panicIndexOutOfRange) := by
  refine ⟨?_, ?_, fun n text => stdin_never_panics Unmarshal n text⟩
  · obtain ⟨blanks, line, tail, hin, hb, hl, hlns, ht, _⟩ :=
      exists_first_nonblank_line input.length input (Nat.le_refl _) hns
    exact ⟨blanks, line, tail, hin, hb, hl, hlns, ht⟩
  · intro blanks line tail hin hblank hline hlns htail
    have hin2 : input = inputText blanks line tail := hin
    have hbl : blanks.length < fuel := by
      have := blanks_length_le line tail blanks
      rw [← hin2] at this
      omega
    have hloop : stdinLoop fuel input = .ok (TrimSpace line) := by
      rw [hin2]
      exact stdinLoop_skips_blanks line tail hline hlns htail blanks fuel hblank hbl
    have hne := TrimSpace_ne_nil line hlns
    refine ⟨hloop, hne, ?_⟩
    intro hhead
    cases hs : TrimSpace line with
    | nil => exact absurd hs hne
    | cons c t =>
      rw [hs] at hloop hhead
      have hc : c ≠ Char.ofNat 0x7b := by
        intro hEq; apply hhead; rw [hEq]; rfl
      exact (stdin_after_loop Unmarshal fuel _ c t hloop).1 hc

/-- Two blank lines, then the line ` hi `, then more text: the loop is left with
`hi`, and `stdin` returns `invalid input` without decoding. -/
theorem stdin_stops_at_first_nonblank_line_witness :
    stdinLoop 11 [' ', ' ', '\n', '\n', ' ', 'h', 'i', ' ', '\n', 'x'] = .ok ['h', 'i'] ∧
    stdin (fun _ => none) 11 [' ', ' ', '\n', '\n', ' ', 'h', 'i', ' ', '\n', 'x'] =
      { ret := .err (.errorf "invalid input"), unmarshalled := none } := by
  have h := (stdin_stops_at_first_nonblank_line (fun _ => none)
    [' ', ' ', '\n', '\n', ' ', 'h', 'i', ' ', '\n', 'x'] 11
    ⟨'h', by decide, by decide⟩ (by decide)).2.1
    [[' ', ' '], []] [' ', 'h', 'i', ' '] ['\n', 'x']
    (by decide) (by decide) (by decide) ⟨'h', by decide, by decide⟩ (Or.inr ⟨['x'], rfl⟩)
  have ht : TrimSpace [' ', 'h', 'i', ' '] = ['h', 'i'] := by decide
  rw [ht] at h
  exact ⟨h.1, h.2.2 (by decide)⟩

/-! ## The stages, their channels and their wiring -/

/-- C6 evaluated on the three stages: after an error of ffmpeg the goroutine of
`video_capture` sends on `cancel`; a run of `motion_detect` never does, a
failed read is only offered on `done`; the `OnTrack` handler never does, a
failed `ReadRTP` or `WriteRTP` ends in `panic(err)`. -/
theorem only_video_capture_sends_cancel {σ κ : Type} (cv : Vision σ κ) (fuel : Nat)
    (out : List Nat) (keys : List Int) (err : GoError)
    (events : List (Except GoError Nat × Option GoError)) :
    Effect.sendCancel ∈ video_capture_done (some err) ∧
    (motion_detect cv fuel out keys).cancels = 0 ∧
    (motion_detect cv (fuel + 1) [] keys).sends = [.EOF] ∧
    (motion_detect cv (fuel + 1) [] keys).stop = .blockedOnDone .EOF ∧
    Effect.sendCancel ∉ OnTrack events ∧
    OnTrack [(.error err, none)] = [.panic err] ∧
    OnTrack [(.ok 0, some err)] = [.writeRTP 0, .panic err] := by
  refine ⟨by simp [video_capture_done], loop_cancels cv fuel _ _ out keys, ?_, ?_, ?_,
    rfl, rfl⟩
  · rw [motion_detect, motion_loop_eof]
  · rw [motion_detect, motion_loop_eof]
  · induction events with
    | nil => simp [OnTrack]
    | cons e rest ih =>
      obtain ⟨rd, wr⟩ := e
      cases rd with
      | error e1 => simp [OnTrack]
      | ok rtp =>
        cases wr with
        | none => simpa [OnTrack] using ih
        | some e2 => simp [OnTrack]

/-- C7 evaluated: the lines logged by `main` for the cases of the `select` carry
the result of `webrtc_conn`, whatever was received; an error delivered by
`video_capture` while `webrtc_conn` returned `nil` is logged as `nil`, and an
error delivered by `motion_detect` is replaced by the error of `webrtc_conn`. -/
theorem main_logs_webrtc_error_only (err : Option GoError)
    (received : List (Arm × Option GoError)) :
    main err received = main err (received.map fun p => (p.1, none)) ∧
    main none [(.video_capture, some .ErrUnexpectedEOF)] =
      [{ tag := "[video_capture] error:", value := none }] ∧
    main (some (.errorf "invalid input")) [(.motion_detect, some .EOF)] =
      [{ tag := "[webrtc_conn] error:", value := some (.errorf "invalid input") },
       { tag := "[motion_detect] error:", value := some (.errorf "invalid input") }] := by
  refine ⟨?_, by decide, by decide⟩
  simp [main, List.map_map, Function.comp_def]

/-- C9 evaluated on the wiring of `main`: there is one pipe; its write end is
used by `webrtc_conn` and by `video_capture`, its read end by `video_capture`
and by `motion_detect`. -/
theorem main_wires_one_pipe :
    main_wiring.map (fun u => u.stream.pipe) = [0, 0, 0, 0] ∧
    producers main_wiring 0 = [.webrtc_conn, .video_capture] ∧
    consumers main_wiring 0 = [.video_capture, .motion_detect] ∧
    (∀ n, n ≠ 0 → producers main_wiring n = [] ∧ consumers main_wiring n = []) := by
  refine ⟨by decide, by decide, by decide, ?_⟩
  intro n hn
  have h0 : ¬ (0 = n) := fun h => hn h.symm
  simp [producers, consumers, main_wiring, webrtc_conn, video_capture, motion_detect_reads,
    Pipe, List.filter_cons, h0]

end MotionDetect
